import Mathlib

/-!
Verification of the maildev message ingestion and store pipeline.

The definitions below are shallow embeddings of the JavaScript sources:
  - `src/unnamed/part_002` - the store module (the `parseMessage` assembler and
    the `Store` class); where the stale draft `src/lib/store.js` diverges from
    this file, the spec (section 9) adopts the semantics of this variant
    (generated-filename attachment storage, parser-end completion, script
    stripping), so the embedding follows it and divergences are noted.
  - `src/lib/mailserver.js` - the mail service facade (`getEmailHTML`,
    `relayMail`, ...).

External collaborators that are not part of the repository sources
(the MailParser library, the strip-tags library, the JS builtin
`encodeURIComponent`, `lib/utils.js`) are modelled from the spec; each such
definition carries a doc comment saying so.

Conventions: JS objects become structures, absent JS fields become `none`,
callbacks delivering `(err, value)` become `Except String`, readable file
streams become the path they read (`ReadStream`), and the stream/event
machinery of `parseMessage` becomes an explicit event trace folded over a
state machine.  Where the source reaches an undefined identifier and crashes
(`rimraf` and `errors` are never defined in the store module), or destructures
properties an object does not have (the eml sink provider), the embedding
models the observable outcome of that exact behavior - the thrown exception,
the never-invoked callback, the undefined bindings and the untouched state -
rather than the behavior a repaired program would have.
-/

/-- Modelled from the spec: `utils.formatBytes` lives in `lib/utils.js`, which is
not among the provided sources; the spec (section 3) only requires a
human-readable rendering of the byte count. -/
def formatBytes (n : Nat) : String :=
  if n < 1024 then toString n ++ " B"
  else if n < 1024 * 1024 then toString (n / 1024) ++ " KB"
  else if n < 1024 * 1024 * 1024 then toString (n / (1024 * 1024)) ++ " MB"
  else toString (n / (1024 * 1024 * 1024)) ++ " GB"

/-- Hexadecimal digit character (uppercase), for percent encoding. -/
def hexDigitChar (n : Nat) : Char :=
  if n < 10 then Char.ofNat (48 + n) else Char.ofNat (55 + n)

/-- UTF-8 bytes of a code point, as natural numbers. -/
def utf8BytesOf (n : Nat) : List Nat :=
  if n < 128 then [n]
  else if n < 2048 then [192 + n / 64, 128 + n % 64]
  else if n < 65536 then [224 + n / 4096, 128 + n / 64 % 64, 128 + n % 64]
  else [240 + n / 262144, 128 + n / 4096 % 64, 128 + n / 64 % 64, 128 + n % 64]

/-- The mark characters that `encodeURIComponent` leaves unescaped. -/
def uriUnreservedMarks : List Char := ['-', '_', '.', '!', '~', '*', Char.ofNat 39, '(', ')']

/-- Is the character left unescaped by `encodeURIComponent`? -/
def isUriUnreserved (c : Char) : Bool := c.isAlphanum || uriUnreservedMarks.contains c

/-- Percent-encode one character as the UTF-8 byte sequence of its code point. -/
def percentEncodeChar (c : Char) : List Char :=
  (utf8BytesOf c.toNat).foldr
    (fun b acc => '%' :: hexDigitChar (b / 16) :: hexDigitChar (b % 16) :: acc) []

/-- Modelled from the spec: the JS builtin `encodeURIComponent` used by
`mailserver.js` line 211 (alphanumerics and the standard marks kept, every
other character percent-encoded from its UTF-8 bytes). -/
def encodeURIComponent (s : String) : String :=
  String.mk (s.data.foldr
    (fun c acc => if isUriUnreserved c then c :: acc else percentEncodeChar c ++ acc) [])

/-- Model of `path.join` for the two-segment uses in the store. -/
def pathJoin (a b : String) : String := a ++ "/" ++ b

/-! ## Header-set event (store `parseMessage`, headers handler, part_002 lines 45-60)

Header values are opaque strings; a headers object is a partial map from
header name to value, an absent entry being `none`. -/

/-- A parsed headers object: lookup by header name. -/
def HeaderMap : Type := String → Option String

/-- The message record fields populated by the headers handler.  `parseMessage`
starts from the envelope spread (`{ ...envelope, attachments: [] }`), so
`«from»` and `«to»` may already hold envelope values; the other fields start
absent. -/
structure HMsg where
  «from» : Option String
  «to» : Option String
  cc : Option String
  bcc : Option String
  sender : Option String
  replyTo : Option String
  deliveredTo : Option String
  returnPath : Option String
  priority : Option String
  subject : Option String
  contentType : Option String
  contentDisposition : Option String
  dkimSignature : Option String
  time : Option String
deriving DecidableEq

/-- The `copy` helper of part_002 lines 17-30, in its value-default use
(no transform): if the source header is present the target is set from it,
otherwise if a default value is supplied (truthy) the target is set to the
default, otherwise the target is left as it was. -/
def copyD (src : HeaderMap) (key : String) (dflt : Option String) (cur : Option String) :
    Option String :=
  match src key with
  | some v => some v
  | none =>
    match dflt with
    | some d => some d
    | none => cur

/-- The headers handler of `parseMessage` (part_002 lines 45-60): one `copy`
call per target field; `«from»` gets the parsed `sender` header as default,
`time` gets the receipt time (`new Date()`, here the parameter `now`) as
default, every other field has no default. -/
def onHeaders (h : HeaderMap) (now : String) (m : HMsg) : HMsg :=
  { «from» := copyD h "from" (h "sender") m.«from»,
    «to» := copyD h "to" none m.«to»,
    cc := copyD h "cc" none m.cc,
    bcc := copyD h "bcc" none m.bcc,
    sender := copyD h "sender" none m.sender,
    replyTo := copyD h "reply-to" none m.replyTo,
    deliveredTo := copyD h "delivered-to" none m.deliveredTo,
    returnPath := copyD h "return-path" none m.returnPath,
    priority := copyD h "priority" none m.priority,
    subject := copyD h "subject" none m.subject,
    contentType := copyD h "content-type" none m.contentType,
    contentDisposition := copyD h "content-disposition" none m.contentDisposition,
    dkimSignature := copyD h "dkim-signature" none m.dkimSignature,
    time := copyD h "date" (some now) m.time }

/-! ## Text-part event (store `parseMessage`, data handler text branch,
part_002 lines 91-95) -/

/-- A fragment of an HTML document: an element with its enclosed content, or
bare text between elements. -/
inductive HNode where
  | element (tag : String) (content : String)
  | textNode (s : String)
deriving DecidableEq

/-- Modelled from the spec: the external `strip-tags` library as used at
part_002 line 93 (`stripTags(txt, ["script"])`): removes the listed elements
together with their content and preserves every other fragment. -/
def stripTags : List HNode → List String → List HNode
  | [], _ => []
  | HNode.element t c :: rest, names =>
    if names.contains t then stripTags rest names
    else HNode.element t c :: stripTags rest names
  | HNode.textNode s :: rest, names => HNode.textNode s :: stripTags rest names

/-- The fields of a parser text-part data event (`data.text`, `data.html`,
`data.textAsHtml`), each possibly absent. -/
structure TextData where
  text : Option String
  html : Option (List HNode)
  textAsHtml : Option String
deriving DecidableEq

/-- The body fields of the message record. -/
structure TextFields where
  text : Option String
  html : Option (List HNode)
  textAsHtml : Option String
deriving DecidableEq

/-- The text branch of the data handler (part_002 lines 91-95): three `copy`
calls, the `html` one with the transform `txt => stripTags(txt, ["script"])`.
With a transform, `copy` sets the target to the transformed source value when
the source field is present and otherwise leaves the target alone (the
transform suppresses the default branch). -/
def onTextData (d : TextData) (m : TextFields) : TextFields :=
  let m1 :=
    match d.text with
    | some v => { m with text := some v }
    | none => m
  let m2 :=
    match d.html with
    | some v => { m1 with html := some (stripTags v ["script"]) }
    | none => m1
  match d.textAsHtml with
  | some v => { m2 with textAsHtml := some v }
  | none => m2

/-! ## Store records and id-based lookups (part_002 `Store`) -/

/-- A readable file stream, identified by the path it reads
(`fs.createReadStream(path)`). -/
structure ReadStream where
  path : String
deriving DecidableEq

/-- A fragment of a stored HTML body, segmented the way the `cid:` rewriting
regex of `mailserver.js` line 216 sees it: `srcAttr dq1 dq2 v` stands for the
substring `src=<q1><v><q2>` (each quote independently double or single,
`true` meaning double), `lit` for any other stretch of text. -/
inductive CTok where
  | srcAttr (dq1 dq2 : Bool) (val : String)
  | lit (s : String)
deriving DecidableEq

/-- An attachment record as assembled by the data handler of `parseMessage`
(part_002 lines 63-73), restricted to the fields the claims are about. -/
structure Att where
  generatedFileName : String
  contentType : String
  contentId : Option String
  source : String
deriving DecidableEq

/-- A completed message record as held by `Store.messages`, restricted to the
fields the claims are about. -/
structure EMsg where
  id : String
  source : String
  html : List CTok
  attachments : List Att
deriving DecidableEq

/-- `Store.emailById` (part_002 lines 147-157): filter the index by id and
succeed exactly when the filter result has length one. -/
def emailById (msgs : List EMsg) (mid : String) : Except String EMsg :=
  match msgs.filter (fun m => m.id == mid) with
  | [e] => Except.ok e
  | _ => Except.error "Email was not found"

/-- `Store.emailStreamById` (part_002 lines 159-165): resolve the record, then
open a read stream on its raw source. -/
def emailStreamById (msgs : List EMsg) (mid : String) : Except String ReadStream :=
  match emailById msgs mid with
  | Except.error e => Except.error e
  | Except.ok email => Except.ok (ReadStream.mk email.source)

/-- `Store.emailAttachmentStreamById` (part_002 lines 167-185): resolve the
record; error if it has no attachments; filter by `generatedFileName`; error
if nothing matches; otherwise answer the first match's content type and a
read stream on its stored source. -/
def emailAttachmentStreamById (msgs : List EMsg) (mid fn : String) :
    Except String (String × ReadStream) :=
  match emailById msgs mid with
  | Except.error e => Except.error e
  | Except.ok email =>
    if email.attachments.isEmpty then Except.error "Email has no attachments"
    else
      match email.attachments.filter (fun a => a.generatedFileName == fn) with
      | [] => Except.error "Attachment not found"
      | a :: _ => Except.ok (a.contentType, ReadStream.mk a.source)

/-- The registration step of `Store.handleNewMessage` (part_002 lines 282-288):
a completed message is pushed onto the index unconditionally - there is no
duplicate-id check. -/
def pushMessage (msgs : List EMsg) (m : EMsg) : List EMsg := msgs ++ [m]

/-- `mailServer.relayMail` called with a mail id (mailserver.js lines 304-332):
resolve the record via `getEmail`, propagating its error, then open the raw
stream and hand both to the outgoing relay. -/
def relayMailById (msgs : List EMsg) (mid : String) : Except String (EMsg × ReadStream) :=
  match emailById msgs mid with
  | Except.error e => Except.error e
  | Except.ok mail =>
    match emailStreamById msgs mail.id with
    | Except.error e => Except.error e
    | Except.ok s => Except.ok (mail, s)

/-- The base-url normalization of `mailServer.getEmailHTML` (mailserver.js
lines 192-197): a supplied base url is prefixed with `//`, an absent one
becomes the empty string. -/
def renderBase : Option String → String
  | some b => "//" ++ b
  | none => ""

/-- `getFileUrl` of `mailserver.js` lines 210-212. -/
def getFileUrl (baseUrl mid filename : String) : String :=
  baseUrl ++ "/email/" ++ mid ++ "/attachment/" ++ encodeURIComponent filename

/-- One regex replacement pass of `mailserver.js` lines 215-219 for one
embedded attachment: every `src=<q>cid:<contentId><q>` token is rewritten to
`src="<url>"` (double quotes), every other token is untouched. -/
def replaceCidTok (mid baseUrl : String) (a : Att) (cid : String) : CTok → CTok
  | CTok.srcAttr q1 q2 v =>
    if v = "cid:" ++ cid then
      CTok.srcAttr true true (getFileUrl baseUrl mid a.generatedFileName)
    else CTok.srcAttr q1 q2 v
  | CTok.lit s => CTok.lit s

/-- The per-attachment step of `getEmailHTML`: attachments without a truthy
`contentId` are filtered out before the replacement loop (mailserver.js lines
206-208), the rest each trigger one global replacement pass. -/
def applyEmbedded (mid baseUrl : String) (html : List CTok) (a : Att) : List CTok :=
  match a.contentId with
  | some cid => if cid = "" then html else html.map (replaceCidTok mid baseUrl a cid)
  | none => html

/-- `mailServer.getEmailHTML` (mailserver.js lines 191-224): resolve the
record, propagating a lookup error, then run the embedded-attachment
replacement passes over its html body in attachment-list order. -/
def getEmailHTML (msgs : List EMsg) (mid : String) (baseUrl : Option String) :
    Except String (List CTok) :=
  match emailById msgs mid with
  | Except.error e => Except.error e
  | Except.ok email =>
    Except.ok (email.attachments.foldl (applyEmbedded mid (renderBase baseUrl)) email.html)

/-- The on-disk location `Store.handleNewMessage` gives an attachment
(part_002 lines 272-279): `<mailDir>/<id>/<generatedFileName>`. -/
def attachmentStoredSource (mailDir mid gfn : String) : String :=
  pathJoin (pathJoin mailDir mid) gfn

/-- The on-disk location of the raw message (part_002 lines 269-271):
`<mailDir>/<id>.eml`. -/
def emlStoredPath (mailDir mid : String) : String := pathJoin mailDir (mid ++ ".eml")

/-! ## Read flags (`Store.markAllEmailRead`, part_002 lines 187-196) -/

/-- A message record as seen by the read-flag operations: the `read` flag
(absent on a fresh record, which JS treats as false) and the rest of the
record, opaque here. -/
structure RMsg where
  read : Bool
  payload : String
deriving DecidableEq

/-- `Store.markAllEmailRead` (part_002 lines 187-196): walk the index, set
`read = true` on each record whose flag is not already true, count the
records changed, and deliver the count. -/
def markAllEmailRead : List RMsg → List RMsg × Nat
  | [] => ([], 0)
  | m :: rest =>
    let r := markAllEmailRead rest
    if m.read then (m :: r.1, r.2) else ({ m with read := true } :: r.1, r.2 + 1)

/-! ## Deletion (`Store.deleteById` and `Store.deleteAll`, part_002 lines
202-252; `src/lib/store.js` lines 177-227 are textually the same logic) -/

/-- A message record as seen by the deletion operations. -/
structure DMsg where
  id : String
  source : String
  attachmentDir : String
  subject : String
deriving DecidableEq

/-- The index-finding loop of `deleteById` (part_002 lines 217-223):
`let index` starts undefined and is set to the first matching position. -/
def findIndexJs (msgs : List DMsg) (mid : String) : Option Nat :=
  msgs.findIdx? (fun m => m.id == mid)

/-- The observable outcome of one `deleteById` call: either the callback is
invoked with an error message, or an uncaught exception escapes and the
callback is never invoked. -/
inductive DeleteByIdOutcome where
  | callbackErr (msg : String)
  | thrown (msg : String)
deriving DecidableEq

/-- `Store.deleteById` (part_002 lines 216-252).  The not-found guard is
`if (!index)`: in JS `!index` is true both when `index` is still undefined
(no match) and when `index === 0` (the first record matched), so both cases
answer the error `Email not found` through the callback.  On the surviving
branch (found index one or more) the code next calls
`rimraf(email.source, ...)`, but `rimraf` is an undefined identifier in this
module - it is never required - so under `use strict` that call throws a
ReferenceError (as would the `errors.push` in its callback, `errors` being
undeclared too): the splice at line 250 and the callback at line 251 are
never reached.  On every path the in-memory index is left unchanged, so the
pair returned here carries the outcome and the unchanged message list. -/
def deleteById (msgs : List DMsg) (mid : String) : DeleteByIdOutcome × List DMsg :=
  match findIndexJs msgs mid with
  | none => (DeleteByIdOutcome.callbackErr "Email not found", msgs)
  | some 0 => (DeleteByIdOutcome.callbackErr "Email not found", msgs)
  | some (_ + 1) => (DeleteByIdOutcome.thrown "rimraf is not defined", msgs)

/-- The observable outcome of one `deleteAll` call: the in-memory index
afterwards, the directory entries whose removal was actually initiated, the
uncaught exception if one escaped, and whether the completion callback was
invoked. -/
structure DeleteAllRun where
  messages : List DMsg
  attempted : List String
  thrown : Option String
  callbackCalled : Bool
deriving DecidableEq

/-- `Store.deleteAll` (part_002 lines 202-214): first `splice` empties the
in-memory index; then `fs.readdir` lists the root directory (`files` here is
the successful listing) and `forEach` calls
`rimraf(path.join(rootDir, file), ...)` per entry.  `rimraf` is an undefined
identifier in this module - it is never required - so under `use strict` the
first iteration of a non-empty listing throws a ReferenceError: no removal is
ever initiated, nothing depends on any removal outcome, and the remaining
entries are never reached (an empty listing simply sweeps nothing).  The
`callback` parameter of `deleteAll` is never invoked on any path. -/
def deleteAll (_msgs : List DMsg) (files : List String) : DeleteAllRun :=
  { messages := [],
    attempted := [],
    thrown :=
      match files with
      | [] => none
      | _ :: _ => some "rimraf is not defined",
    callbackCalled := false }

/-- The reporting discipline claim C8 asserts for `deleteAll`: individual
removal failures are collected and reported to the caller (so the call
completes by invoking its callback and nothing is thrown). -/
def reportsCollectedFailures (r : DeleteAllRun) : Prop :=
  r.callbackCalled = true ∧ r.thrown = none

instance (r : DeleteAllRun) : Decidable (reportsCollectedFailures r) :=
  inferInstanceAs (Decidable (And _ _))

/-! ## The raw-stream side of `parseMessage` (part_002 lines 101-119)

The inbound stream is a sequence of byte chunks followed by the end event.
`parseMessage` destructures
`const { source, emlStream } = outStreams.emlStream()` (line 101) and only
under `if (emlStream)` sets `message.source` and pipes the inbound bytes to
the sink (lines 102-105).  But `handleNewMessage`'s provider (part_002 lines
269-271, and `emlWriteStream` in the lib/store.js draft alike) returns the
bare `fs.createWriteStream(...)` value itself - a stream object with no
`source` and no `emlStream` property - so both bindings destructure to
undefined, the guard never fires, `message.source` stays unset and nothing is
ever piped to a raw artifact.  The byte count is still kept by the data
handler (lines 108-111), and the end handler (lines 112-119) still sets
`message.size` and `message.sizeHuman` from it. -/

/-- A writable file stream, identified by the path it was opened on
(`fs.createWriteStream(path)`). -/
structure WriteStream where
  path : String
deriving DecidableEq

/-- The destructure `const { source, emlStream } = outStreams.emlStream()`
of part_002 line 101, applied to what the provider actually returns: a bare
`WriteStream` object has neither a `source` nor an `emlStream` property, so
both bindings come out undefined. -/
def emlDestructure (_ws : WriteStream) : Option String × Option WriteStream :=
  (none, none)

/-- An inbound raw-stream event: a data chunk (its bytes), or end of stream. -/
inductive SEv where
  | data (chunk : List Nat)
  | eos
deriving DecidableEq

/-- The state of the raw-stream side of one `parseMessage` run: the running
byte count, the bytes that actually reached the eml sink, the record fields,
and the sink binding the destructure produced. -/
structure RawState where
  sizeAcc : Nat
  written : List Nat
  msgSize : Option Nat
  msgSizeHuman : Option String
  msgSource : Option String
  emlSink : Option WriteStream
deriving DecidableEq

/-- Initial raw-stream state from the destructured provider result: only when
the `emlStream` binding is present does the guard at part_002 lines 102-105
set `message.source` and wire the pipe. -/
def rawInit (d : Option String × Option WriteStream) : RawState :=
  match d.2 with
  | some ws =>
    { sizeAcc := 0, written := [], msgSize := none, msgSizeHuman := none,
      msgSource := d.1, emlSink := some ws }
  | none =>
    { sizeAcc := 0, written := [], msgSize := none, msgSizeHuman := none,
      msgSource := none, emlSink := none }

/-- One raw-stream event: a chunk is counted (line 110) and reaches the eml
sink only if one was wired (the pipe of line 104 exists only under the
`if (emlStream)` guard); stream end sets `message.size` and
`message.sizeHuman` (lines 113-114). -/
def rawStep (s : RawState) : SEv → RawState
  | SEv.data c =>
    { s with sizeAcc := s.sizeAcc + c.length,
             written := if s.emlSink.isSome then s.written ++ c else s.written }
  | SEv.eos => { s with msgSize := some s.sizeAcc, msgSizeHuman := some (formatBytes s.sizeAcc) }

/-- Run the raw-stream side of `parseMessage` over an event trace, starting
from the destructured provider result. -/
def runRaw (d : Option String × Option WriteStream) (t : List SEv) : RawState :=
  t.foldl rawStep (rawInit d)

/-! ## The completion barrier of `parseMessage` (part_002 lines 41-120)

Events of one ingestion, across the inbound stream and the parser:
  - `chunk n`: an inbound data chunk of `n` bytes (handler lines 109-111);
  - `inEnd`: inbound stream end (handler lines 112-119: size and sizeHuman are
    computed, the eml sink is ended, `parseStream.end()` is called);
  - `attachOpen i`: the parser emits attachment `i` and the data handler opens
    its sink (lines 62-83);
  - `attachDone i`: attachment `i`'s content stream ends, its sink is ended
    and the parser hold is released (lines 84-87);
  - `parserEnd`: the parser emits its end event and the handler at lines 97-99
    invokes the completion callback with the message record.

The trace-validity hypotheses of the barrier theorem encode the collaborator
contract, modelled from the spec (section 6): the parser emits its end event
exactly once, only after `parseStream.end()` was called (hence after `inEnd`)
and only after every emitted attachment was released. -/

/-- An event of one `parseMessage` ingestion. -/
inductive MEv where
  | chunk (n : Nat)
  | inEnd
  | attachOpen (i : Nat)
  | attachDone (i : Nat)
  | parserEnd
deriving DecidableEq

/-- The indices of the attachments opened in a trace, in event order. -/
def opensOf : List MEv → List Nat
  | [] => []
  | MEv.attachOpen i :: t => i :: opensOf t
  | _ :: t => opensOf t

/-- Assembler state: the running byte count, the record fields it feeds, the
sinks opened and ended so far, the number of completion-callback invocations,
and a snapshot (`cb*`) of the record and sink bookkeeping at the moment the
callback fires. -/
structure AState where
  sizeAcc : Nat
  msgSize : Option Nat
  msgSizeHuman : Option String
  opened : List Nat
  closed : List Nat
  cbCount : Nat
  cbSize : Option (Option Nat)
  cbSizeHuman : Option (Option String)
  cbOpened : Option (List Nat)
  cbClosed : Option (List Nat)
deriving DecidableEq

/-- Initial assembler state. -/
def aInit : AState :=
  { sizeAcc := 0, msgSize := none, msgSizeHuman := none, opened := [], closed := [],
    cbCount := 0, cbSize := none, cbSizeHuman := none, cbOpened := none, cbClosed := none }

/-- One assembler event, following the handlers of part_002 lines 41-120. -/
def aStep (s : AState) : MEv → AState
  | MEv.chunk n => { s with sizeAcc := s.sizeAcc + n }
  | MEv.inEnd =>
    { s with msgSize := some s.sizeAcc, msgSizeHuman := some (formatBytes s.sizeAcc) }
  | MEv.attachOpen i => { s with opened := s.opened ++ [i] }
  | MEv.attachDone i => { s with closed := s.closed ++ [i] }
  | MEv.parserEnd =>
    { s with cbCount := s.cbCount + 1,
             cbSize := some s.msgSize,
             cbSizeHuman := some s.msgSizeHuman,
             cbOpened := some s.opened,
             cbClosed := some s.closed }

/-- Run the assembler over an event trace. -/
def runAssemble (t : List MEv) : AState := t.foldl aStep aInit

/-! # Helper lemmas -/

/-- `copy` with a value default is the first-present-wins chain. -/
theorem copyD_eq_or (src : HeaderMap) (key : String) (dflt cur : Option String) :
    copyD src key dflt cur = Option.or (src key) (Option.or dflt cur) := by
  cases h : src key <;> cases dflt <;> simp [copyD, h]

/-- `stripTags` keeps exactly the fragments whose tag is not listed. -/
theorem stripTags_eq_filter (doc : List HNode) (names : List String) :
    stripTags doc names =
      doc.filter (fun n =>
        match n with
        | HNode.element t _ => !(names.contains t)
        | HNode.textNode _ => true) := by
  induction doc with
  | nil => rfl
  | cons n rest ih =>
    cases n with
    | element t c =>
      by_cases hc : t ∈ names
      · simp [stripTags, hc, List.filter, ih]
      · simp [stripTags, hc, List.filter, ih]
    | textNode s => simp [stripTags, List.filter, ih]

/-- Setting the read flag on an already-read record is the identity. -/
theorem rmsg_set_read_eq (m : RMsg) (h : m.read = true) :
    ({ m with read := true } : RMsg) = m := by
  cases m with
  | mk r p => cases h; rfl

/-- The count delivered by `markAllEmailRead` is the number of unread records. -/
theorem markAllEmailRead_snd (msgs : List RMsg) :
    (markAllEmailRead msgs).2 = (msgs.filter (fun m => !m.read)).length := by
  induction msgs with
  | nil => rfl
  | cons m rest ih =>
    cases hm : m.read <;> simp [markAllEmailRead, hm, List.filter, ih]

/-- The index after `markAllEmailRead` is the old index with every read flag
set, all other fields untouched. -/
theorem markAllEmailRead_fst (msgs : List RMsg) :
    (markAllEmailRead msgs).1 = msgs.map (fun m => { m with read := true }) := by
  induction msgs with
  | nil => rfl
  | cons m rest ih =>
    cases hm : m.read <;>
      simp [markAllEmailRead, hm, ih, rmsg_set_read_eq m]

/-- On an index with nothing unread, `markAllEmailRead` changes nothing and
counts zero. -/
theorem markAllEmailRead_allread (msgs : List RMsg) (h : ∀ m ∈ msgs, m.read = true) :
    markAllEmailRead msgs = (msgs, 0) := by
  induction msgs with
  | nil => rfl
  | cons m rest ih =>
    have hm : m.read = true := h m (List.mem_cons_self m rest)
    have hrest := ih (fun x hx => h x (List.mem_cons_of_mem m hx))
    simp [markAllEmailRead, hm, hrest]

/-! # Claim theorems -/

/-- C2: the claim says every present id is deletable, in particular the record
at insertion-index 0.  The code fails everywhere: `deleteById` finds the
first record at index 0, and the guard `if (!index)` treats the found index 0
like the undefined sentinel, so a store with exactly one message answers
`Email not found` through the callback for that message's own id (first two
conjuncts).  A record found at any later index fares no better: the
found-index path immediately calls the undefined identifier `rimraf` and
throws a ReferenceError before splicing or calling back (last two
conjuncts).  In both cases the index is unchanged - no deletion ever
completes, and at index 0 the failure is specifically the falsy-index
sentinel confusion the spec names. -/
theorem deleteById_never_completes_a_deletion :
    findIndexJs
        [{ id := "m0", source := "/mail/m0.eml", attachmentDir := "/mail/m0", subject := "Hi" }]
        "m0" = some 0 ∧
    deleteById
        [{ id := "m0", source := "/mail/m0.eml", attachmentDir := "/mail/m0", subject := "Hi" }]
        "m0" =
      (DeleteByIdOutcome.callbackErr "Email not found",
       [{ id := "m0", source := "/mail/m0.eml", attachmentDir := "/mail/m0", subject := "Hi" }]) ∧
    findIndexJs
        [{ id := "m1", source := "/mail/m1.eml", attachmentDir := "/mail/m1", subject := "A" },
         { id := "m0", source := "/mail/m0.eml", attachmentDir := "/mail/m0", subject := "Hi" }]
        "m0" = some 1 ∧
    deleteById
        [{ id := "m1", source := "/mail/m1.eml", attachmentDir := "/mail/m1", subject := "A" },
         { id := "m0", source := "/mail/m0.eml", attachmentDir := "/mail/m0", subject := "Hi" }]
        "m0" =
      (DeleteByIdOutcome.thrown "rimraf is not defined",
       [{ id := "m1", source := "/mail/m1.eml", attachmentDir := "/mail/m1", subject := "A" },
        { id := "m0", source := "/mail/m0.eml", attachmentDir := "/mail/m0", subject := "Hi" }]) :=
  ⟨rfl, rfl, rfl, rfl⟩

/-- C4: on a header-set event each header-derived field follows the
copy-with-default policy: the target is the source header when present
(`Option.or` takes its first present argument); `«from»` falls back to the
parsed `sender` header and otherwise stays what the envelope gave; `time`
falls back to the receipt time `now`, so it is always set; every other target
field is the header when present and otherwise is left as it was (unset, for
a record the envelope did not populate). -/
theorem onHeaders_copy_policy (h : HeaderMap) (now : String) (m : HMsg) :
    (onHeaders h now m).«from» = Option.or (h "from") (Option.or (h "sender") m.«from») ∧
    (onHeaders h now m).time = Option.or (h "date") (some now) ∧
    (onHeaders h now m).«to» = Option.or (h "to") m.«to» ∧
    (onHeaders h now m).cc = Option.or (h "cc") m.cc ∧
    (onHeaders h now m).bcc = Option.or (h "bcc") m.bcc ∧
    (onHeaders h now m).sender = Option.or (h "sender") m.sender ∧
    (onHeaders h now m).replyTo = Option.or (h "reply-to") m.replyTo ∧
    (onHeaders h now m).deliveredTo = Option.or (h "delivered-to") m.deliveredTo ∧
    (onHeaders h now m).returnPath = Option.or (h "return-path") m.returnPath ∧
    (onHeaders h now m).priority = Option.or (h "priority") m.priority ∧
    (onHeaders h now m).subject = Option.or (h "subject") m.subject ∧
    (onHeaders h now m).contentType = Option.or (h "content-type") m.contentType ∧
    (onHeaders h now m).contentDisposition =
      Option.or (h "content-disposition") m.contentDisposition ∧
    (onHeaders h now m).dkimSignature = Option.or (h "dkim-signature") m.dkimSignature := by
  refine ⟨?_, ?_, ?_, ?_, ?_, ?_, ?_, ?_, ?_, ?_, ?_, ?_, ?_, ?_⟩ <;>
    simp [onHeaders, copyD_eq_or, Option.none_or, Option.or_assoc]

/-- C5: on a text-part event the three body fields are each set independently
and only when the corresponding source field is present (an absent source
field leaves the previously stored value alone), the stored `html` is the
source `html` passed through `stripTags` with exactly the `script` tag
listed, and that stripping removes precisely the `script` elements: no
`script` element survives, and every other fragment of the document is kept
(in order, being a filter). -/
theorem onTextData_policy (d : TextData) (m : TextFields) :
    (onTextData d m).text = Option.or d.text m.text ∧
    (onTextData d m).html =
      Option.or (d.html.map (fun v => stripTags v ["script"])) m.html ∧
    (onTextData d m).textAsHtml = Option.or d.textAsHtml m.textAsHtml ∧
    (∀ doc, stripTags doc ["script"] =
      doc.filter (fun n =>
        match n with
        | HNode.element t _ => !(t == "script")
        | HNode.textNode _ => true)) ∧
    (∀ doc t c, HNode.element t c ∈ stripTags doc ["script"] → t ≠ "script") ∧
    (∀ doc n, n ∈ doc → (∀ c, n ≠ HNode.element "script" c) → n ∈ stripTags doc ["script"]) := by
  obtain ⟨dt, dh, dta⟩ := d
  refine ⟨?_, ?_, ?_, ?_, ?_, ?_⟩
  · cases dt <;> cases dh <;> cases dta <;> simp [onTextData]
  · cases dt <;> cases dh <;> cases dta <;> simp [onTextData]
  · cases dt <;> cases dh <;> cases dta <;> simp [onTextData]
  · intro doc
    rw [stripTags_eq_filter]
    apply List.filter_congr
    intro n _
    cases n <;> simp [BEq.beq]
  · intro doc t c hmem
    rw [stripTags_eq_filter] at hmem
    have := List.of_mem_filter hmem
    simpa using this
  · intro doc n hmem hns
    rw [stripTags_eq_filter]
    apply List.mem_filter_of_mem hmem
    cases n with
    | element t c =>
      have : t ≠ "script" := by
        intro ht
        exact hns c (by rw [ht])
      simpa using this
    | textNode s => simp

/-- C5 witness: a concrete text-part event carrying text, html with one bold
element, one script element and surrounding text, and textAsHtml, applied to
the empty record: all three fields are set, the stored html keeps the bold
element and the text but drops the script element. -/
theorem onTextData_policy_witness :
    (onTextData
        { text := some "hello",
          html := some [HNode.textNode "hi ", HNode.element "b" "hello",
                        HNode.element "script" "evil()"],
          textAsHtml := some "<p>hello</p>" }
        { text := none, html := none, textAsHtml := none }).html =
      some [HNode.textNode "hi ", HNode.element "b" "hello"] ∧
    HNode.element "b" "hello" ∈
      stripTags [HNode.textNode "hi ", HNode.element "b" "hello",
                 HNode.element "script" "evil()"] ["script"] ∧
    (∀ c, HNode.element "script" c ∉
      stripTags [HNode.textNode "hi ", HNode.element "b" "hello",
                 HNode.element "script" "evil()"] ["script"]) := by
  have h := onTextData_policy
    { text := some "hello",
      html := some [HNode.textNode "hi ", HNode.element "b" "hello",
                    HNode.element "script" "evil()"],
      textAsHtml := some "<p>hello</p>" }
    { text := none, html := none, textAsHtml := none }
  refine ⟨?_, ?_, ?_⟩
  · rw [h.2.1]; rfl
  · exact h.2.2.2.2.2 _ _ (by decide)
      (fun c hc => by simp at hc)
  · intro c hc
    exact h.2.2.2.2.1 _ _ _ hc rfl

/-- C6: `markAllEmailRead` delivers the number of records whose read flag was
not already true, the resulting index is the old one with every read flag set
and all other fields (`payload`) untouched, and it is idempotent: run again
on its own result it changes nothing and delivers zero. -/
theorem markAllEmailRead_spec (msgs : List RMsg) :
    (markAllEmailRead msgs).2 = (msgs.filter (fun m => !m.read)).length ∧
    (markAllEmailRead msgs).1 = msgs.map (fun m => { m with read := true }) ∧
    ((markAllEmailRead msgs).1).map RMsg.payload = msgs.map RMsg.payload ∧
    markAllEmailRead (markAllEmailRead msgs).1 = ((markAllEmailRead msgs).1, 0) := by
  refine ⟨markAllEmailRead_snd msgs, markAllEmailRead_fst msgs, ?_, ?_⟩
  · rw [markAllEmailRead_fst, List.map_map]
    rfl
  · apply markAllEmailRead_allread
    intro m hm
    rw [markAllEmailRead_fst] at hm
    obtain ⟨x, _, rfl⟩ := List.mem_map.mp hm
    rfl

/-- C8 counterexample: a store with one message and a root directory listing
of two entries.  The claim as stated requires a best-effort removal of every
entry with individual failures collected and reported to the caller; the code
clears the index and then its sweep crashes before touching the disk: the
undefined identifier `rimraf` raises a ReferenceError on the first entry, so
no removal is initiated at all, the remaining entry is never reached, and the
`deleteAll` callback is never invoked - the reporting discipline
`reportsCollectedFailures` is violated and the attempted sweep is empty. -/
theorem deleteAll_sweep_crash_counterexample :
    ¬ reportsCollectedFailures
        (deleteAll
          [{ id := "m0", source := "/mail/m0.eml", attachmentDir := "/mail/m0", subject := "Hi" }]
          ["m0.eml", "m0"]) ∧
    (deleteAll
        [{ id := "m0", source := "/mail/m0.eml", attachmentDir := "/mail/m0", subject := "Hi" }]
        ["m0.eml", "m0"]).attempted = [] ∧
    (deleteAll
        [{ id := "m0", source := "/mail/m0.eml", attachmentDir := "/mail/m0", subject := "Hi" }]
        ["m0.eml", "m0"]).thrown = some "rimraf is not defined" ∧
    (deleteAll
        [{ id := "m0", source := "/mail/m0.eml", attachmentDir := "/mail/m0", subject := "Hi" }]
        ["m0.eml", "m0"]).callbackCalled = false := by
  decide

/-- C8 as amended: `deleteAll` empties the in-memory index first and
unconditionally (a subsequent listing of the store is empty and nothing that
happens afterwards undoes it), but the disk sweep is dead code: no removal is
ever initiated, an exception escapes exactly when the root listing is
non-empty (the undefined identifier `rimraf` raises a ReferenceError on the
first entry), and the completion callback passed to `deleteAll` is never
invoked on any path. -/
theorem deleteAll_clears_index_but_sweep_crashes (msgs : List DMsg) (files : List String) :
    (deleteAll msgs files).messages = [] ∧
    (deleteAll msgs files).attempted = [] ∧
    ((deleteAll msgs files).thrown = none ↔ files = []) ∧
    (deleteAll msgs files).callbackCalled = false := by
  refine ⟨rfl, rfl, ?_, rfl⟩
  cases files <;> simp [deleteAll]

/-- C8 witness: the amended theorem applied to a one-message store with a
one-entry root listing - the index still comes out empty, nothing was
initiated, and something was thrown. -/
theorem deleteAll_clears_index_but_sweep_crashes_witness :
    (deleteAll
        [{ id := "m0", source := "/mail/m0.eml", attachmentDir := "/mail/m0", subject := "Hi" }]
        ["m0.eml"]).messages = [] ∧
    (deleteAll
        [{ id := "m0", source := "/mail/m0.eml", attachmentDir := "/mail/m0", subject := "Hi" }]
        ["m0.eml"]).attempted = [] ∧
    (deleteAll
        [{ id := "m0", source := "/mail/m0.eml", attachmentDir := "/mail/m0", subject := "Hi" }]
        ["m0.eml"]).thrown ≠ none := by
  have h := deleteAll_clears_index_but_sweep_crashes
    [{ id := "m0", source := "/mail/m0.eml", attachmentDir := "/mail/m0", subject := "Hi" }]
    ["m0.eml"]
  refine ⟨h.1, h.2.1, ?_⟩
  intro hn
  exact absurd (h.2.2.1.mp hn) (by decide)

/-- Before the end-of-stream event, `message.size` is whatever it was. -/
theorem rawFold_msgSize_of_no_eos (t : List SEv) (s : RawState) (h : SEv.eos ∉ t) :
    (t.foldl rawStep s).msgSize = s.msgSize := by
  induction t generalizing s with
  | nil => rfl
  | cons e rest ih =>
    have hrest : SEv.eos ∉ rest := fun hh => h (List.mem_cons_of_mem e hh)
    cases e with
    | data c => exact ih _ hrest
    | eos => exact absurd (List.mem_cons_self _ _) h

/-- No raw-stream event changes `message.source`. -/
theorem rawFold_msgSource (t : List SEv) (s : RawState) :
    (t.foldl rawStep s).msgSource = s.msgSource := by
  induction t generalizing s with
  | nil => rfl
  | cons e rest ih => cases e <;> exact ih _

/-- Piping a sequence of chunks adds their total length to the byte count. -/
theorem rawFold_data_sizeAcc (cs : List (List Nat)) (s : RawState) :
    ((cs.map SEv.data).foldl rawStep s).sizeAcc = s.sizeAcc + (cs.map List.length).sum := by
  induction cs generalizing s with
  | nil => simp
  | cons c t ih => simp [rawStep, ih, Nat.add_assoc]

/-- With no eml sink wired, not a single byte is ever written, whatever the
traffic. -/
theorem rawFold_written_of_no_sink (t : List SEv) (s : RawState) (h : s.emlSink = none) :
    (t.foldl rawStep s).written = s.written := by
  induction t generalizing s with
  | nil => rfl
  | cons e rest ih =>
    cases e with
    | data c =>
      rw [List.foldl_cons, ih _ (by simp [rawStep, h])]
      simp [rawStep, h]
    | eos =>
      rw [List.foldl_cons, ih _ (by simp [rawStep, h])]
      rfl

/-- C3: the claim requires `record.size`, set once the inbound stream fully
drains, to equal the byte length written to the raw artifact at
`record.source`.  The size half is honored: over any full stream (chunks
`cs`, then end of stream) the record ends with `size` equal to the total
chunk length, and over a chunks-only trace (stream not yet drained, last
conjunct) no size is set.  But under the wiring the repository actually has -
the provider hands back the bare write stream itself and `parseMessage`
destructures `{ source, emlStream }` out of it, both bindings coming out
undefined - the sink half cannot hold: `message.source` is never set and not
a single byte is ever written, so the claimed equality fails on every
nonempty ingestion. -/
theorem parseMessage_raw_sink_never_wired (ws : WriteStream) (cs : List (List Nat)) :
    emlDestructure ws = (none, none) ∧
    (runRaw (emlDestructure ws) (cs.map SEv.data ++ [SEv.eos])).msgSize =
      some ((cs.map List.length).sum) ∧
    (runRaw (emlDestructure ws) (cs.map SEv.data ++ [SEv.eos])).msgSource = none ∧
    (runRaw (emlDestructure ws) (cs.map SEv.data ++ [SEv.eos])).written = [] ∧
    (runRaw (emlDestructure ws) (cs.map SEv.data)).msgSize = none := by
  have hsink : (rawInit (emlDestructure ws)).emlSink = none := rfl
  have hsplit : runRaw (emlDestructure ws) (cs.map SEv.data ++ [SEv.eos]) =
      rawStep ((cs.map SEv.data).foldl rawStep (rawInit (emlDestructure ws))) SEv.eos := by
    simp [runRaw, List.foldl_append]
  refine ⟨rfl, ?_, ?_, ?_, ?_⟩
  · rw [hsplit]
    simp only [rawStep]
    rw [rawFold_data_sizeAcc]
    simp [rawInit, emlDestructure]
  · rw [hsplit]
    simp only [rawStep]
    rw [rawFold_msgSource]
    rfl
  · rw [hsplit]
    simp only [rawStep]
    rw [rawFold_written_of_no_sink (cs.map SEv.data) (rawInit (emlDestructure ws)) hsink]
    rfl
  · have hmem : SEv.eos ∉ cs.map SEv.data := by simp
    rw [runRaw, rawFold_msgSize_of_no_eos (cs.map SEv.data) (rawInit (emlDestructure ws)) hmem]
    rfl

/-- Events other than the parser end event never invoke the completion
callback. -/
theorem aFold_cbCount_of_no_parserEnd (t : List MEv) (s : AState)
    (h : MEv.parserEnd ∉ t) : (t.foldl aStep s).cbCount = s.cbCount := by
  induction t generalizing s with
  | nil => rfl
  | cons e rest ih =>
    have he : e ≠ MEv.parserEnd := fun hh => h (hh ▸ List.mem_cons_self e rest)
    have hrest : MEv.parserEnd ∉ rest := fun hh => h (List.mem_cons_of_mem e hh)
    cases e with
    | chunk n => exact ih _ hrest
    | inEnd => exact ih _ hrest
    | attachOpen i => exact ih _ hrest
    | attachDone i => exact ih _ hrest
    | parserEnd => exact absurd rfl he

/-- Once the inbound stream has ended, the record carries a size and its
human rendering, and no later event unsets them. -/
theorem aFold_size_isSome (t : List MEv) (s : AState)
    (h : MEv.inEnd ∈ t ∨ (s.msgSize.isSome = true ∧ s.msgSizeHuman.isSome = true)) :
    (t.foldl aStep s).msgSize.isSome = true ∧
      (t.foldl aStep s).msgSizeHuman.isSome = true := by
  induction t generalizing s with
  | nil =>
    cases h with
    | inl hmem => exact absurd hmem (List.not_mem_nil _)
    | inr hs => exact hs
  | cons e rest ih =>
    cases e with
    | inEnd => exact ih _ (Or.inr (by simp [aStep]))
    | chunk n =>
      cases h with
      | inl hmem =>
        exact ih _ (Or.inl (by simpa using hmem))
      | inr hs => exact ih _ (Or.inr (by simpa [aStep] using hs))
    | attachOpen i =>
      cases h with
      | inl hmem => exact ih _ (Or.inl (by simpa using hmem))
      | inr hs => exact ih _ (Or.inr (by simpa [aStep] using hs))
    | attachDone i =>
      cases h with
      | inl hmem => exact ih _ (Or.inl (by simpa using hmem))
      | inr hs => exact ih _ (Or.inr (by simpa [aStep] using hs))
    | parserEnd =>
      cases h with
      | inl hmem => exact ih _ (Or.inl (by simpa using hmem))
      | inr hs => exact ih _ (Or.inr (by simpa [aStep] using hs))

/-- A sink index is in the opened list exactly when it was there already or an
open event for it occurs in the trace. -/
theorem aFold_opened_mem (t : List MEv) (s : AState) (i : Nat) :
    i ∈ (t.foldl aStep s).opened ↔ (i ∈ s.opened ∨ i ∈ opensOf t) := by
  induction t generalizing s with
  | nil => simp [opensOf]
  | cons e rest ih =>
    cases e with
    | chunk n => simpa [opensOf] using ih _
    | inEnd => simpa [opensOf] using ih _
    | attachDone j => simpa [opensOf] using ih _
    | parserEnd => simpa [opensOf] using ih _
    | attachOpen j =>
      rw [List.foldl, ih]
      simp [aStep, opensOf, List.mem_append]
      tauto

/-- A done event for a sink puts it in the closed list, and it stays there. -/
theorem aFold_closed_mem (t : List MEv) (s : AState) (i : Nat)
    (h : i ∈ s.closed ∨ MEv.attachDone i ∈ t) :
    i ∈ (t.foldl aStep s).closed := by
  induction t generalizing s with
  | nil =>
    cases h with
    | inl hs => exact hs
    | inr hmem => exact absurd hmem (List.not_mem_nil _)
  | cons e rest ih =>
    cases e with
    | attachDone j =>
      cases h with
      | inl hs => exact ih _ (Or.inl (by simp [aStep, List.mem_append]; exact Or.inl hs))
      | inr hmem =>
        rcases List.mem_cons.mp hmem with hj | hrest
        · have : i = j := by cases hj; rfl
          exact ih _ (Or.inl (by simp [aStep, List.mem_append, this]))
        · exact ih _ (Or.inr hrest)
    | chunk n =>
      cases h with
      | inl hs => exact ih _ (Or.inl hs)
      | inr hmem => exact ih _ (Or.inr (by simpa using hmem))
    | inEnd =>
      cases h with
      | inl hs => exact ih _ (Or.inl hs)
      | inr hmem => exact ih _ (Or.inr (by simpa using hmem))
    | attachOpen j =>
      cases h with
      | inl hs => exact ih _ (Or.inl hs)
      | inr hmem => exact ih _ (Or.inr (by simpa using hmem))
    | parserEnd =>
      cases h with
      | inl hs => exact ih _ (Or.inl hs)
      | inr hmem => exact ih _ (Or.inr (by simpa using hmem))

/-- C1: for any ingestion trace obeying the stream and parser contract - the
parser end event happens exactly once, after the inbound stream has ended and
after every opened attachment was released (hypotheses `hpe`, `hin`, `hrel`,
with the end event closing the trace) - the completion callback fires exactly
once, and the record it observes already carries `size` and `sizeHuman`
(the inbound stream fully drained), while every attachment sink that was
opened has been ended by then: no completion result is observable before the
record is consistent with its artifacts. -/
theorem parseMessage_callback_barrier (body : List MEv)
    (hpe : MEv.parserEnd ∉ body)
    (hin : MEv.inEnd ∈ body)
    (hrel : ∀ i ∈ opensOf body, MEv.attachDone i ∈ body) :
    (runAssemble (body ++ [MEv.parserEnd])).cbCount = 1 ∧
    (∃ n, (runAssemble (body ++ [MEv.parserEnd])).cbSize = some (some n)) ∧
    (∃ hum, (runAssemble (body ++ [MEv.parserEnd])).cbSizeHuman = some (some hum)) ∧
    (∃ op cl, (runAssemble (body ++ [MEv.parserEnd])).cbOpened = some op ∧
      (runAssemble (body ++ [MEv.parserEnd])).cbClosed = some cl ∧
      ∀ i ∈ op, i ∈ cl) := by
  have hsplit : runAssemble (body ++ [MEv.parserEnd]) =
      aStep (body.foldl aStep aInit) MEv.parserEnd := by
    simp [runAssemble, List.foldl_append]
  have hcb : (body.foldl aStep aInit).cbCount = 0 :=
    aFold_cbCount_of_no_parserEnd body aInit hpe
  have hsz := aFold_size_isSome body aInit (Or.inl hin)
  refine ⟨?_, ?_, ?_, ?_⟩
  · rw [hsplit]
    simp [aStep, hcb]
  · obtain ⟨n, hn⟩ := Option.isSome_iff_exists.mp hsz.1
    exact ⟨n, by rw [hsplit]; simp [aStep, hn]⟩
  · obtain ⟨hum, hh⟩ := Option.isSome_iff_exists.mp hsz.2
    exact ⟨hum, by rw [hsplit]; simp [aStep, hh]⟩
  · refine ⟨(body.foldl aStep aInit).opened, (body.foldl aStep aInit).closed,
      by rw [hsplit]; rfl, by rw [hsplit]; rfl, ?_⟩
    intro i hi
    have hop : i ∈ opensOf body := by
      have := (aFold_opened_mem body aInit i).mp hi
      simpa [aInit] using this
    exact aFold_closed_mem body aInit i (Or.inr (hrel i hop))

/-- C1 witness: a trace with one five-byte chunk, one attachment opened and
released, then stream end, closed by the parser end event: the callback fires
exactly once and sees the size, and the opened sink is among the closed. -/
theorem parseMessage_callback_barrier_witness :
    (runAssemble ([MEv.chunk 5, MEv.attachOpen 0, MEv.attachDone 0, MEv.inEnd] ++
        [MEv.parserEnd])).cbCount = 1 ∧
    (runAssemble ([MEv.chunk 5, MEv.attachOpen 0, MEv.attachDone 0, MEv.inEnd] ++
        [MEv.parserEnd])).cbSize = some (some 5) ∧
    (runAssemble ([MEv.chunk 5, MEv.attachOpen 0, MEv.attachDone 0, MEv.inEnd] ++
        [MEv.parserEnd])).cbOpened = some [0] ∧
    (runAssemble ([MEv.chunk 5, MEv.attachOpen 0, MEv.attachDone 0, MEv.inEnd] ++
        [MEv.parserEnd])).cbClosed = some [0] := by
  have h := parseMessage_callback_barrier
    [MEv.chunk 5, MEv.attachOpen 0, MEv.attachDone 0, MEv.inEnd]
    (by decide) (by decide) (by decide)
  exact ⟨h.1, rfl, rfl, rfl⟩

/-- With no record matching the id, `emailById` reports the lookup miss. -/
theorem emailById_error_of_nil (msgs : List EMsg) (mid : String)
    (h : msgs.filter (fun m => m.id == mid) = []) :
    emailById msgs mid = Except.error "Email was not found" := by
  unfold emailById
  rw [h]

/-- With two or more records matching the id, `emailById` reports the lookup
miss: the `length == 1` guard rejects duplicates. -/
theorem emailById_error_of_two (msgs : List EMsg) (mid : String)
    (h : 2 ≤ (msgs.filter (fun m => m.id == mid)).length) :
    emailById msgs mid = Except.error "Email was not found" := by
  unfold emailById
  cases hl : msgs.filter (fun m => m.id == mid) with
  | nil => simp [hl] at h
  | cons a t =>
    cases t with
    | nil => simp [hl] at h
    | cons b t2 => rfl

/-- C10: nothing in message registration prevents duplicate ids
(`handleNewMessage` appends unconditionally, last conjunct), and on a store
state where two or more records share an id, `emailById` - whose guard
demands exactly one match - reports `Email was not found`, as do all the
id-based operations built on it: the raw stream, the attachment stream, the
html rendering and relay by id. -/
theorem emailById_duplicate_ids_not_found (msgs : List EMsg) (mid : String)
    (hdup : 2 ≤ (msgs.filter (fun m => m.id == mid)).length) :
    emailById msgs mid = Except.error "Email was not found" ∧
    emailStreamById msgs mid = Except.error "Email was not found" ∧
    (∀ fn, emailAttachmentStreamById msgs mid fn = Except.error "Email was not found") ∧
    (∀ bu, getEmailHTML msgs mid bu = Except.error "Email was not found") ∧
    relayMailById msgs mid = Except.error "Email was not found" ∧
    (∀ m, pushMessage msgs m = msgs ++ [m]) := by
  have h := emailById_error_of_two msgs mid hdup
  refine ⟨h, ?_, ?_, ?_, ?_, fun m => rfl⟩
  · unfold emailStreamById
    rw [h]
  · intro fn
    unfold emailAttachmentStreamById
    rw [h]
  · intro bu
    unfold getEmailHTML
    rw [h]
  · unfold relayMailById
    rw [h]

/-- C10 witness: two records sharing the id `dup`: the lookup and the
attachment lookup both answer `Email was not found`, and registration appends
a third record with the same id without complaint. -/
theorem emailById_duplicate_ids_not_found_witness :
    emailById
        [{ id := "dup", source := "/mail/a.eml", html := [], attachments := [] },
         { id := "dup", source := "/mail/b.eml", html := [], attachments := [] }] "dup" =
      Except.error "Email was not found" ∧
    emailAttachmentStreamById
        [{ id := "dup", source := "/mail/a.eml", html := [], attachments := [] },
         { id := "dup", source := "/mail/b.eml", html := [], attachments := [] }]
        "dup" "f.png" =
      Except.error "Email was not found" ∧
    pushMessage
        [{ id := "dup", source := "/mail/a.eml", html := [], attachments := [] },
         { id := "dup", source := "/mail/b.eml", html := [], attachments := [] }]
        { id := "dup", source := "/mail/c.eml", html := [], attachments := [] } =
      [{ id := "dup", source := "/mail/a.eml", html := [], attachments := [] },
       { id := "dup", source := "/mail/b.eml", html := [], attachments := [] },
       { id := "dup", source := "/mail/c.eml", html := [], attachments := [] }] := by
  have h := emailById_duplicate_ids_not_found
    [{ id := "dup", source := "/mail/a.eml", html := [], attachments := [] },
     { id := "dup", source := "/mail/b.eml", html := [], attachments := [] }] "dup"
    (by decide)
  exact ⟨h.1, h.2.2.1 "f.png",
    h.2.2.2.2.2 { id := "dup", source := "/mail/c.eml", html := [], attachments := [] }⟩

/-- C7: `emailAttachmentStreamById` first resolves the record - a store with
no record of that id yields `Email was not found`; on a resolved record with
an empty attachment list it yields `Email has no attachments`; with
attachments but none whose `generatedFileName` matches, `Attachment not
found`; and when the linear `generatedFileName` match is non-empty it answers
the first match's `contentType` together with a read stream on that
attachment's stored source. -/
theorem emailAttachmentStreamById_contract (msgs : List EMsg) (mid fn : String) :
    (msgs.filter (fun m => m.id == mid) = [] →
      emailAttachmentStreamById msgs mid fn = Except.error "Email was not found") ∧
    (∀ e, emailById msgs mid = Except.ok e → e.attachments = [] →
      emailAttachmentStreamById msgs mid fn = Except.error "Email has no attachments") ∧
    (∀ e, emailById msgs mid = Except.ok e → e.attachments ≠ [] →
      e.attachments.filter (fun a => a.generatedFileName == fn) = [] →
      emailAttachmentStreamById msgs mid fn = Except.error "Attachment not found") ∧
    (∀ e a rest, emailById msgs mid = Except.ok e →
      e.attachments.filter (fun a => a.generatedFileName == fn) = a :: rest →
      emailAttachmentStreamById msgs mid fn =
        Except.ok (a.contentType, ReadStream.mk a.source)) := by
  refine ⟨?_, ?_, ?_, ?_⟩
  · intro hnil
    unfold emailAttachmentStreamById
    rw [emailById_error_of_nil msgs mid hnil]
  · intro e he hatt
    unfold emailAttachmentStreamById
    rw [he]
    simp [hatt]
  · intro e he hne hfil
    unfold emailAttachmentStreamById
    rw [he]
    have hE : e.attachments.isEmpty = false := by
      cases hA : e.attachments with
      | nil => exact absurd hA hne
      | cons x xs => rfl
    simp [hE, hfil]
  · intro e a rest he hfil
    unfold emailAttachmentStreamById
    rw [he]
    have hne : e.attachments ≠ [] := by
      intro hA
      rw [hA] at hfil
      simp at hfil
    have hE : e.attachments.isEmpty = false := by
      cases hA : e.attachments with
      | nil => exact absurd hA hne
      | cons x xs => rfl
    simp [hE, hfil]

/-- C7 witness: a one-message store whose message owns one attachment: lookup
by the right id and generated file name answers the content type and the
stream on the stored source; lookup under an unknown id answers the
record-level miss; lookup of a wrong file name answers the attachment-level
miss. -/
theorem emailAttachmentStreamById_contract_witness :
    emailAttachmentStreamById
        [{ id := "m0", source := "/mail/m0.eml", html := [],
           attachments := [{ generatedFileName := "pic.png", contentType := "image/png",
                             contentId := some "c1", source := "/mail/m0/pic.png" }] }]
        "m0" "pic.png" =
      Except.ok ("image/png", ReadStream.mk "/mail/m0/pic.png") ∧
    emailAttachmentStreamById
        [{ id := "m0", source := "/mail/m0.eml", html := [],
           attachments := [{ generatedFileName := "pic.png", contentType := "image/png",
                             contentId := some "c1", source := "/mail/m0/pic.png" }] }]
        "nope" "pic.png" =
      Except.error "Email was not found" ∧
    emailAttachmentStreamById
        [{ id := "m0", source := "/mail/m0.eml", html := [],
           attachments := [{ generatedFileName := "pic.png", contentType := "image/png",
                             contentId := some "c1", source := "/mail/m0/pic.png" }] }]
        "m0" "other.png" =
      Except.error "Attachment not found" := by
  have h := emailAttachmentStreamById_contract
    [{ id := "m0", source := "/mail/m0.eml", html := [],
       attachments := [{ generatedFileName := "pic.png", contentType := "image/png",
                         contentId := some "c1", source := "/mail/m0/pic.png" }] }]
    "m0" "pic.png"
  have h2 := emailAttachmentStreamById_contract
    [{ id := "m0", source := "/mail/m0.eml", html := [],
       attachments := [{ generatedFileName := "pic.png", contentType := "image/png",
                         contentId := some "c1", source := "/mail/m0/pic.png" }] }]
    "nope" "pic.png"
  have h3 := emailAttachmentStreamById_contract
    [{ id := "m0", source := "/mail/m0.eml", html := [],
       attachments := [{ generatedFileName := "pic.png", contentType := "image/png",
                         contentId := some "c1", source := "/mail/m0/pic.png" }] }]
    "m0" "other.png"
  refine ⟨h.2.2.2 _ _ [] rfl rfl, h2.1 rfl, h3.2.2.1 _ rfl (by decide) rfl⟩

/-- Every generated attachment URL begins with a slash (the base url is empty
or protocol-relative), so its first character is not the `c` of `cid:`. -/
theorem getFileUrl_head (bu : Option String) (mid g : String) :
    (getFileUrl (renderBase bu) mid g).data.head? = some '/' := by
  have hemp : ("" : String).data = [] := rfl
  have heml : ("/email/" : String).data = ['/', 'e', 'm', 'a', 'i', 'l', '/'] := rfl
  have hsl : ("//" : String).data = ['/', '/'] := rfl
  cases bu with
  | none => simp [getFileUrl, renderBase, String.data_append, hemp, heml]
  | some b => simp [getFileUrl, renderBase, String.data_append, hsl]

/-- A generated attachment URL is never a `cid:` reference, so a replacement
pass for a later attachment never rewrites an already-rewritten token. -/
theorem getFileUrl_ne_cid (bu : Option String) (mid g x : String) :
    getFileUrl (renderBase bu) mid g ≠ "cid:" ++ x := by
  intro h
  have h1 := getFileUrl_head bu mid g
  rw [h] at h1
  have hc : ("cid:" ++ x).data.head? = some 'c' := by
    have hcid : ("cid:" : String).data = ['c', 'i', 'd', ':'] := rfl
    simp [String.data_append, hcid]
  rw [h1] at hc
  exact absurd hc (by decide)

/-- Two `cid:` references are equal only when the content ids are. -/
theorem cid_append_inj (x y : String) (h : ("cid:" ++ x : String) = "cid:" ++ y) : x = y := by
  have hd := congrArg String.data h
  simp [String.data_append] at hd
  exact String.ext hd

/-- A replacement pass for any attachment leaves an already-generated URL
token untouched. -/
theorem applyEmbedded_keeps_url (mid : String) (bu : Option String) (b : Att)
    (g : String) (html : List CTok) (k : Nat)
    (hk : html[k]? = some (CTok.srcAttr true true (getFileUrl (renderBase bu) mid g))) :
    (applyEmbedded mid (renderBase bu) html b)[k]? =
      some (CTok.srcAttr true true (getFileUrl (renderBase bu) mid g)) := by
  cases hb : b.contentId with
  | none => simpa [applyEmbedded, hb] using hk
  | some cid =>
    by_cases hce : cid = ""
    · simpa [applyEmbedded, hb, hce] using hk
    · simp only [applyEmbedded, hb]
      rw [if_neg hce, List.getElem?_map, hk]
      simp [replaceCidTok, getFileUrl_ne_cid bu mid g cid]

/-- Running the replacement passes of `getEmailHTML` over the attachment list
turns the token `src=<q>cid:<c><q>` at position `k` into the generated URL of
the unique attachment whose content id is `c`, provided that attachment is in
the list. -/
theorem foldl_applyEmbedded_replaces (mid : String) (bu : Option String) (a : Att)
    (c : String) (k : Nat) (q1 q2 : Bool) (atts : List Att) :
    ∀ html : List CTok,
      a.contentId = some c → c ≠ "" →
      (∀ b ∈ atts, b.contentId = some c → b = a) →
      ((html[k]? = some (CTok.srcAttr q1 q2 ("cid:" ++ c)) ∧ a ∈ atts) ∨
        html[k]? = some (CTok.srcAttr true true
          (getFileUrl (renderBase bu) mid a.generatedFileName))) →
      (atts.foldl (applyEmbedded mid (renderBase bu)) html)[k]? =
        some (CTok.srcAttr true true (getFileUrl (renderBase bu) mid a.generatedFileName)) := by
  induction atts with
  | nil =>
    intro html _ _ _ hdis
    cases hdis with
    | inl hl => exact absurd hl.2 (List.not_mem_nil a)
    | inr hr => simpa using hr
  | cons b atts ih =>
    intro html hac hcne hu hdis
    rw [List.foldl_cons]
    apply ih (applyEmbedded mid (renderBase bu) html b) hac hcne
      (fun x hx hcx => hu x (List.mem_cons_of_mem b hx) hcx)
    cases hdis with
    | inr hurl =>
      right
      exact applyEmbedded_keeps_url mid bu b a.generatedFileName html k hurl
    | inl hl =>
      obtain ⟨htok, hmem⟩ := hl
      cases hbc : b.contentId with
      | none =>
        left
        refine ⟨by simpa [applyEmbedded, hbc] using htok, ?_⟩
        rcases List.mem_cons.mp hmem with heq | hmem2
        · rw [heq, hbc] at hac
          cases hac
        · exact hmem2
      | some cid =>
        by_cases hcc : cid = c
        · have hba : b = a := hu b (List.mem_cons_self b atts) (by rw [hbc, hcc])
          right
          have hce : ¬ cid = "" := by rw [hcc]; exact hcne
          simp only [applyEmbedded, hbc]
          rw [if_neg hce, List.getElem?_map, htok]
          simp [replaceCidTok, hcc, hba]
        · left
          have hne : ("cid:" ++ c) ≠ "cid:" ++ cid :=
            fun hEq => hcc ((cid_append_inj c cid hEq).symm)
          refine ⟨?_, ?_⟩
          · by_cases hce : cid = ""
            · simpa [applyEmbedded, hbc, hce] using htok
            · simp only [applyEmbedded, hbc]
              rw [if_neg hce, List.getElem?_map, htok]
              simp [replaceCidTok, hne]
          · rcases List.mem_cons.mp hmem with heq | hmem2
            · rw [heq, hbc] at hac
              injection hac with h2
              exact absurd h2 hcc
            · exact hmem2

/-- When an attachment is in the list and is the only one bearing its
generated file name, the linear `generatedFileName` filter finds it first. -/
theorem filter_gfn_first (atts : List Att) (a : Att) (ha : a ∈ atts)
    (hu : ∀ b ∈ atts, b.generatedFileName = a.generatedFileName → b = a) :
    ∃ rest, atts.filter (fun b => b.generatedFileName == a.generatedFileName) = a :: rest := by
  induction atts with
  | nil => exact absurd ha (List.not_mem_nil a)
  | cons x xs ih =>
    by_cases hx : x.generatedFileName = a.generatedFileName
    · have hxa : x = a := hu x (List.mem_cons_self x xs) hx
      subst hxa
      exact ⟨xs.filter (fun b => b.generatedFileName == x.generatedFileName),
        by simp [List.filter_cons]⟩
    · have hmem : a ∈ xs := by
        rcases List.mem_cons.mp ha with heq | h2
        · exact absurd (by rw [heq]) hx
        · exact h2
      obtain ⟨rest, hres⟩ := ih hmem (fun b hb hgb => hu b (List.mem_cons_of_mem x hb) hgb)
      exact ⟨rest, by simp [List.filter_cons, hx, hres]⟩

/-- C9: for a stored message whose html body holds a `src` reference to
`cid:<c>` where `<c>` is the content id of (exactly) one attachment `a` of the
message, `getEmailHTML` answers the body with that token rewritten to
`src="<base>/email/<id>/attachment/<encoded generatedFileName>"` - the URL is
keyed by the message id and `a.generatedFileName`.  That same
`generatedFileName` is the name the store layout keeps the attachment under
(`handleNewMessage` writes it to `<mailDir>/<id>/<generatedFileName>`), and,
last conjunct, retrieving by it hands back that attachment stream: when the
attachment record's `source` is the stored location and the name is unique in
the message, `emailAttachmentStreamById` answers `a.contentType` and a stream
on the stored path. -/
theorem getEmailHTML_cid_resolution (msgs : List EMsg) (e : EMsg) (a : Att)
    (c mid : String) (bu : Option String) (k : Nat) (q1 q2 : Bool)
    (he : emailById msgs mid = Except.ok e)
    (ha : a ∈ e.attachments) (hc : a.contentId = some c) (hcne : c ≠ "")
    (huniq : ∀ b ∈ e.attachments, b.contentId = some c → b = a)
    (htok : e.html[k]? = some (CTok.srcAttr q1 q2 ("cid:" ++ c))) :
    (∃ out, getEmailHTML msgs mid bu = Except.ok out ∧
      out[k]? = some (CTok.srcAttr true true
        (getFileUrl (renderBase bu) mid a.generatedFileName))) ∧
    (∀ mailDir, a.source = attachmentStoredSource mailDir mid a.generatedFileName →
      (∀ b ∈ e.attachments, b.generatedFileName = a.generatedFileName → b = a) →
      emailAttachmentStreamById msgs mid a.generatedFileName =
        Except.ok (a.contentType,
          ReadStream.mk (attachmentStoredSource mailDir mid a.generatedFileName))) := by
  constructor
  · refine ⟨e.attachments.foldl (applyEmbedded mid (renderBase bu)) e.html, ?_, ?_⟩
    · unfold getEmailHTML
      rw [he]
    · exact foldl_applyEmbedded_replaces mid bu a c k q1 q2 e.attachments e.html
        hc hcne huniq (Or.inl ⟨htok, ha⟩)
  · intro mailDir hsrc hug
    obtain ⟨rest, hres⟩ := filter_gfn_first e.attachments a ha hug
    unfold emailAttachmentStreamById
    rw [he]
    have hne : e.attachments ≠ [] := by
      intro hA
      rw [hA] at ha
      exact List.not_mem_nil a ha
    have hE : e.attachments.isEmpty = false := by
      cases hA : e.attachments with
      | nil => exact absurd hA hne
      | cons x xs => rfl
    rw [← hsrc]
    simp [hE, hres]

/-- C9 witness: a message `m1` with an inline image attachment (content id
`c9`, generated file name `img.png`) and an html body whose second token is
`src="cid:c9"`: the rendered html carries the URL built from the id and the
generated file name, and retrieval by that file name streams the stored
attachment. -/
theorem getEmailHTML_cid_resolution_witness :
    (∃ out,
      getEmailHTML
          [{ id := "m1", source := "/mail/m1.eml",
             html := [CTok.lit "<p>x</p>", CTok.srcAttr true true "cid:c9"],
             attachments := [{ generatedFileName := "img.png", contentType := "image/png",
                               contentId := some "c9", source := "/mail/m1/img.png" }] }]
          "m1" none = Except.ok out ∧
      out[1]? = some (CTok.srcAttr true true (getFileUrl (renderBase none) "m1" "img.png"))) ∧
    emailAttachmentStreamById
        [{ id := "m1", source := "/mail/m1.eml",
           html := [CTok.lit "<p>x</p>", CTok.srcAttr true true "cid:c9"],
           attachments := [{ generatedFileName := "img.png", contentType := "image/png",
                             contentId := some "c9", source := "/mail/m1/img.png" }] }]
        "m1" "img.png" =
      Except.ok ("image/png", ReadStream.mk (attachmentStoredSource "/mail" "m1" "img.png")) := by
  have h := getEmailHTML_cid_resolution
    [{ id := "m1", source := "/mail/m1.eml",
       html := [CTok.lit "<p>x</p>", CTok.srcAttr true true "cid:c9"],
       attachments := [{ generatedFileName := "img.png", contentType := "image/png",
                         contentId := some "c9", source := "/mail/m1/img.png" }] }]
    { id := "m1", source := "/mail/m1.eml",
      html := [CTok.lit "<p>x</p>", CTok.srcAttr true true "cid:c9"],
      attachments := [{ generatedFileName := "img.png", contentType := "image/png",
                        contentId := some "c9", source := "/mail/m1/img.png" }] }
    { generatedFileName := "img.png", contentType := "image/png",
      contentId := some "c9", source := "/mail/m1/img.png" }
    "c9" "m1" none 1 true true rfl (by decide) rfl (by decide) (by decide) rfl
  exact ⟨h.1, h.2 "/mail" rfl (by decide)⟩
